import Mathlib

/-!
Shallow embedding of the schedule generator of `src/main.py` (`generate_schedule`,
lines 56-220), together with proofs of the behavioural properties claimed for it.

Modelling conventions:
* Python `int` is modelled by `Int`; `str` by `String`.
* Python dicts built from input lists are modelled as association lists with
  last-binding-wins lookup (`dictGet`).
* Python sets that are only tested for membership are modelled as `List`s with
  duplicate-free insertion (`pyInsert`).
* Python `list.sort(key=k)` is a stable sort; it is modelled by the stable,
  structurally recursive `List.insertionSort` (any two stable sorts with the
  same total preorder agree, and `insertionSort` reduces in the kernel).
  `reverse=True` is modelled by flipping the comparison, which is again exactly
  Python's stable descending sort.
* The uncaught `KeyError` the code can raise while scoring (line 156, when the
  task's teacher is not a key of `teacher_daily`) is modelled by returning
  `Except.error`; all other paths return `Except.ok`.
-/

deriving instance DecidableEq for Except

namespace UniShed

/-- `GroupItem` of main.py lines 24-26. -/
structure GroupItem where
  name : String
  size : Int := 0
deriving Repr, DecidableEq

/-- `RoomItem` of main.py lines 28-30. -/
structure RoomItem where
  name : String
  capacity : Int := 9999
deriving Repr, DecidableEq

/-- `Assignment` of main.py lines 32-37. -/
structure Assignment where
  teacher : String
  groups : List String
  subject : String
  count : Int
  type : String
deriving Repr, DecidableEq

/-- `SessionData` of main.py lines 39-48.  The two dict-valued fields are
modelled as association lists. -/
structure SessionData where
  teachers : List String
  subjects : List String := []
  groups : List GroupItem
  rooms : List RoomItem
  assignments : List Assignment
  teacher_prefs : List (String × String) := []
  teacher_busy : List (String × List String) := []
  days : List String
  times : List String
deriving Repr, DecidableEq

/-- Lookup in a Python dict built by inserting the bindings of `m` in order:
later bindings overwrite earlier ones, `get` of an absent key is `none`. -/
def dictGet {α : Type} (m : List (String × α)) (k : String) : Option α :=
  (m.reverse.find? (fun p => p.1 == k)).map (fun p => p.2)

/-- The value `slot_map[s]` carries (main.py line 66). -/
structure SlotInfo where
  day : String
  time_idx : Nat
deriving Repr, DecidableEq

/-- main.py lines 58-66: the slot grid, in chronological order
(all times of the first day, then all times of the second day, ...). -/
def slotsOf (data : SessionData) : List String :=
  (data.days.map (fun d => data.times.map (fun t => d ++ " " ++ t))).flatten

/-- The bindings inserted into `slot_map` (main.py line 66), in insertion
order; `slot_map[s]` is `dictGet (slotEntries data) s`. -/
def slotEntries (data : SessionData) : List (String × SlotInfo) :=
  (data.days.map (fun d =>
    data.times.enum.map (fun p => (d ++ " " ++ p.2, SlotInfo.mk d p.1)))).flatten

/-- `group_sizes.get(g, 0)` of main.py line 72. -/
def group_sizes (data : SessionData) (g : String) : Int :=
  (dictGet (data.groups.map (fun x => (x.name, x.size))) g).getD 0

/-- The bindings of the `room_caps` dict of main.py line 73. -/
def room_caps (data : SessionData) : List (String × Int) :=
  data.rooms.map (fun r => (r.name, r.capacity))

/-- `room_names` of main.py line 74. -/
def room_names (data : SessionData) : List String :=
  data.rooms.map (fun r => r.name)

/-- Python `max` over a list of ints (the empty case is never taken by the
code, which guards with `if data.rooms`). -/
def pyMaxInt : List Int → Int
  | [] => 0
  | x :: xs => xs.foldl max x

/-- `max_cap` of main.py lines 77-80: `0` initially, and only when rooms
exist the largest capacity (with `0` replaced by `9999`). -/
def max_cap (data : SessionData) : Int :=
  if data.rooms.isEmpty then 0
  else
    let m := pyMaxInt (data.rooms.map (fun r => r.capacity))
    if m = 0 then 9999 else m

/-- A placement task (the dicts appended to `tasks`, main.py lines 92-97 and
128-133). -/
structure Task where
  teacher : String
  groups : List String
  subject : String
  type : String
deriving Repr, DecidableEq

/-- `sum(group_sizes.get(g, 0) for g in gs)`. -/
def sumSizes (data : SessionData) (gs : List String) : Int :=
  gs.foldl (fun acc g => acc + group_sizes data g) 0

/-- main.py line 101: the assignment's groups, stable-sorted by descending
size. -/
def sorted_groups (data : SessionData) (gs : List String) : List String :=
  gs.insertionSort (fun a b => group_sizes data b ≤ group_sizes data a)

/-- The stream-packing loop of main.py lines 102-123, with explicit state
`(remaining, current_stream, current_size, streams)`. -/
def packStreams (data : SessionData) (cap : Int) :
    List String → List String → Int → List (List String) → List (List String)
  | [], cur, _, streams => if cur.isEmpty then streams else streams ++ [cur]
  | g :: rest, cur, csize, streams =>
    if cap < group_sizes data g then
      packStreams data cap rest cur csize (streams ++ [[g]])
    else if csize + group_sizes data g ≤ cap then
      packStreams data cap rest (cur ++ [g]) (csize + group_sizes data g) streams
    else
      packStreams data cap rest [g] (group_sizes data g)
        (if cur.isEmpty then streams else streams ++ [cur])

/-- The streams a non-seminar assignment is split into (main.py lines
99-123). -/
def streamsFor (data : SessionData) (a : Assignment) : List (List String) :=
  packStreams data (max_cap data) (sorted_groups data a.groups) [] 0 []

/-- The tasks one assignment expands into (main.py lines 85-133); `range`
of a negative `count` is empty, hence `Int.toNat`. -/
def tasksFor (data : SessionData) (a : Assignment) : List Task :=
  if a.type == "seminar" then
    (a.groups.map (fun g =>
      List.replicate a.count.toNat (Task.mk a.teacher [g] a.subject "seminar"))).flatten
  else
    ((streamsFor data a).map (fun s =>
      List.replicate a.count.toNat (Task.mk a.teacher s a.subject "lecture"))).flatten

/-- The full expanded task list, in creation order (main.py lines 82-133). -/
def tasksOf (data : SessionData) : List Task :=
  (data.assignments.map (tasksFor data)).flatten

/-- The composite sort key of main.py line 136, with the Python bool mapped
to `{0, 1} ⊆ ℕ`. -/
def taskKey (data : SessionData) (t : Task) : Nat × Nat × Int :=
  ((if t.type == "lecture" then 1 else 0), t.groups.length, sumSizes data t.groups)

/-- Lexicographic `≤` on the composite key. -/
def keyLe (k1 k2 : Nat × Nat × Int) : Prop :=
  k1.1 < k2.1 ∨ (k1.1 = k2.1 ∧
    (k1.2.1 < k2.2.1 ∨ (k1.2.1 = k2.2.1 ∧ k1.2.2 ≤ k2.2.2)))

instance (k1 k2 : Nat × Nat × Int) : Decidable (keyLe k1 k2) :=
  inferInstanceAs (Decidable (_ ∨ _))

/-- main.py line 136: `tasks.sort(key=..., reverse=True)` — stable descending
sort by the composite key. -/
def sortedTasks (data : SessionData) : List Task :=
  (tasksOf data).insertionSort (fun a b => keyLe (taskKey data b) (taskKey data a))

/-- A produced schedule entry (main.py lines 199-203).  The `groups` field
records the task's group list, whose `", "`-join is the `group` field of the
Python dict. -/
structure Entry where
  slot : String
  day : String
  time : String
  teacher : String
  group : String
  groups : List String
  subject : String
  room : String
  type : String
deriving Repr, DecidableEq

/-- The mutable solver state of main.py lines 138-145: per-slot occupancy
sets, the per-teacher per-day used time indices, and the two output lists. -/
structure St where
  occT : String → List String
  occG : String → List String
  occR : String → List String
  td : String → String → List Nat
  sched : List Entry
  errs : List String

/-- The state after main.py lines 138-145 (all occupancy empty). -/
def initSt : St :=
  { occT := fun _ => [], occG := fun _ => [], occR := fun _ => [],
    td := fun _ _ => [], sched := [], errs := [] }

/-- Python `set.add`, on the list model. -/
def pyInsert {α : Type} [DecidableEq α] (x : α) (l : List α) : List α :=
  if x ∈ l then l else l ++ [x]

/-- Python `s.replace(pat, "")` on character lists: removes the leftmost
occurrences of `pat` one after another (non-overlapping).  The `fuel`
argument (instantiated with the length of the string) only makes the
recursion structural. -/
def removeAllAux (pat : List Char) : Nat → List Char → List Char
  | _, [] => []
  | 0, s => s
  | fuel + 1, c :: rest =>
    if pat.isPrefixOf (c :: rest) then
      removeAllAux pat fuel ((c :: rest).drop pat.length)
    else c :: removeAllAux pat fuel rest

/-- Python `s.replace(pat, "")` (with `s.replace("", "") = s`). -/
def pyRemoveAll (s pat : String) : String :=
  if pat.data.isEmpty then s
  else String.mk (removeAllAux pat.data s.data.length s.data)

/-- Python `s.strip()`: drop leading and trailing whitespace. -/
def pyStrip (s : String) : String :=
  String.mk (((s.data.dropWhile Char.isWhitespace).reverse.dropWhile
    Char.isWhitespace).reverse)

/-- Python `min` over a list of ints (the empty case is never taken: the code
guards with `if not exist`). -/
def pyMinInt : List Int → Int
  | [] => 0
  | x :: xs => xs.foldl min x

/-- The `score` closure of main.py lines 154-161.  The slot is always a key
of `slot_map`, so the `none` default is unreachable. -/
def scoreSlot (data : SessionData) (td : String → String → List Nat)
    (tname slot : String) : Int :=
  match dictGet (slotEntries data) slot with
  | none => 0
  | some info =>
    if (td tname info.day).isEmpty then 10
    else if pyMinInt ((td tname info.day).map
        (fun (e : Nat) => |(info.time_idx : Int) - (e : Int)|)) = 1 then 100
    else if pyMinInt ((td tname info.day).map
        (fun (e : Nat) => |(info.time_idx : Int) - (e : Int)|)) = 2 then -50
    else 0

/-- The candidate-slot filter of main.py lines 164-169, in chronological
order. -/
def taskAvail (data : SessionData) (st : St) (task : Task) : List String :=
  (slotsOf data).filter (fun slot =>
    !(decide (task.teacher ∈ st.occT slot)) &&
    !(task.groups.any (fun g => decide (g ∈ st.occG slot))) &&
    !(match dictGet data.teacher_busy task.teacher with
      | some busy => decide (slot ∈ busy)
      | none => false))

/-- main.py line 172: `avail.sort(key=score, reverse=True)` — stable
descending sort by score. -/
def sortedAvail (data : SessionData) (st : St) (task : Task) : List String :=
  (taskAvail data st task).insertionSort (fun a b =>
    scoreSlot data st.td task.teacher b ≤ scoreSlot data st.td task.teacher a)

/-- The `fits` closure of main.py line 179:
`(room_caps.get(r, 9999) or 9999) >= stud_count` (`or` replaces a zero
capacity by `9999`). -/
def fits (data : SessionData) (stud : Int) (r : String) : Bool :=
  let c := (dictGet (room_caps data) r).getD 9999
  stud ≤ (if c = 0 then 9999 else c)

/-- main.py lines 188-190: the rooms free in the slot, stable-sorted by
ascending capacity. -/
def freeSorted (data : SessionData) (st : St) (slot : String) : List String :=
  ((room_names data).filter (fun r => !(decide (r ∈ st.occR slot)))).insertionSort
    (fun a b =>
      (dictGet (room_caps data) a).getD 9999 ≤ (dictGet (room_caps data) b).getD 9999)

/-- The preferred-room branch of main.py lines 182-184: the value of `target`
after it (`none` models Python `None`). -/
def prefTarget (data : SessionData) (st : St) (task : Task) (stud : Int)
    (slot : String) : Option String :=
  if task.type != "lecture" then
    match dictGet data.teacher_prefs task.teacher with
    | some pref =>
      if !(decide (pref ∈ st.occR slot)) && fits data stud pref then some pref
      else none
    | none => none
  else none

/-- The room choice of main.py lines 178-193: the final value of `target`
(`none` models Python `None`).  Python's `if not target:` is true both for
`None` and for the empty string, which is faithfully reproduced. -/
def tryRoom (data : SessionData) (st : St) (task : Task) (stud : Int)
    (slot : String) : Option String :=
  if prefTarget data st task stud slot = none ∨
      prefTarget data st task stud slot = some "" then
    match (freeSorted data st slot).find? (fits data stud) with
    | some r => some r
    | none => prefTarget data st task stud slot
  else prefTarget data st task stud slot

/-- The slot loop of main.py lines 177-213: the first candidate slot whose
chosen room is truthy (non-`None`, non-empty) wins; a slot whose `target`
is falsy only updates `reason` and is skipped. -/
def findSlot (data : SessionData) (st : St) (task : Task) (stud : Int) :
    List String → Option (String × String)
  | [] => none
  | slot :: rest =>
    match tryRoom data st task stud slot with
    | some r => if r = "" then findSlot data st task stud rest else some (slot, r)
    | none => findSlot data st task stud rest

/-- The schedule entry appended at main.py lines 196-203 (the slot is always
a key of `slot_map`, so the `getD` default is unreachable). -/
def mkEntry (data : SessionData) (task : Task) (slot room : String) : Entry :=
  let info := (dictGet (slotEntries data) slot).getD (SlotInfo.mk "" 0)
  { slot := slot, day := info.day,
    time := pyStrip (pyRemoveAll slot info.day),
    teacher := task.teacher,
    group := String.intercalate ", " task.groups,
    groups := task.groups,
    subject := task.subject, room := room, type := task.type }

/-- main.py lines 195-210: append the schedule entry and mark the teacher,
the groups, the room and the teacher's day time-index as occupied. -/
def commit (data : SessionData) (st : St) (task : Task) (slot room : String) : St :=
  let info := (dictGet (slotEntries data) slot).getD (SlotInfo.mk "" 0)
  let e : Entry := mkEntry data task slot room
  { occT := fun s => if s = slot then pyInsert task.teacher (st.occT s) else st.occT s,
    occG := fun s =>
      if s = slot then task.groups.foldl (fun acc g => pyInsert g acc) (st.occG s)
      else st.occG s,
    occR := fun s => if s = slot then pyInsert room (st.occR s) else st.occR s,
    td := fun t d =>
      if t = task.teacher ∧ d = info.day then pyInsert info.time_idx (st.td t d)
      else st.td t d,
    sched := st.sched ++ [e],
    errs := st.errs }

/-- The initial `reason` of main.py line 175. -/
def msgNoTime : String := "Нет общего свободного времени"

/-- The capacity-failure `reason` of main.py line 213. -/
def msgNoRoom : String := "Нет свободных кабинетов нужной вместимости"

/-- The zero-slots message of main.py line 69. -/
def msgNoSlots : String := "Не заданы дни или время звонков!"

/-- The diagnostic string of main.py line 216. -/
def errString (task : Task) (reason : String) : String :=
  task.subject ++ " (" ++ task.type ++ ") для " ++ task.teacher ++
    ". Причина: " ++ reason

/-- One iteration of the task loop (main.py lines 148-216).  When the
candidate list is non-empty, `avail.sort(key=score)` evaluates `score` on
each candidate, which raises `KeyError` if the teacher is not a key of
`teacher_daily` (whose keys are exactly `data.teachers`). -/
def stepTask (data : SessionData) (st : St) (task : Task) : Except String St :=
  if (taskAvail data st task).isEmpty then
    .ok { st with errs := st.errs ++ [errString task msgNoTime] }
  else if !(decide (task.teacher ∈ data.teachers)) then
    .error ("KeyError: " ++ task.teacher)
  else
    match findSlot data st task (sumSizes data task.groups) (sortedAvail data st task) with
    | some (slot, room) => .ok (commit data st task slot room)
    | none => .ok { st with errs := st.errs ++ [errString task msgNoRoom] }

/-- The task loop of main.py lines 148-216. -/
def runTasks (data : SessionData) : St → List Task → Except String St
  | st, [] => .ok st
  | st, t :: ts =>
    match stepTask data st t with
    | .error e => .error e
    | .ok st' => runTasks data st' ts

/-- The response value (main.py lines 69 and 220); the error response carries
a `message` field, the success response does not. -/
structure GenResult where
  status : String
  message : Option String := none
  schedule : List Entry
  errors : List String
deriving Repr, DecidableEq

/-- `generate_schedule` of main.py lines 56-220.  `Except.error` marks the
run raising an uncaught `KeyError`. -/
def generate_schedule (data : SessionData) : Except String GenResult :=
  if (slotsOf data).isEmpty then
    .ok { status := "error", message := some msgNoSlots, schedule := [], errors := [] }
  else
    match runTasks data initSt (sortedTasks data) with
    | .error e => .error e
    | .ok st =>
      .ok { status := "success", message := none,
            schedule := st.sched.insertionSort (fun a b =>
              (slotsOf data).findIdx (fun s => s == a.slot) ≤
                (slotsOf data).findIdx (fun s => s == b.slot)),
            errors := st.errs }

/-! ### Basic lemmas about the set and lookup models -/

theorem mem_pyInsert {α : Type} [DecidableEq α] {x y : α} {l : List α} :
    y ∈ pyInsert x l ↔ y = x ∨ y ∈ l := by
  unfold pyInsert
  split
  · rename_i hx
    constructor
    · exact fun h => Or.inr h
    · rintro (rfl | h)
      · exact hx
      · exact h
  · simp [or_comm]

theorem mem_pyInsert_of_mem {α : Type} [DecidableEq α] {x y : α} {l : List α}
    (h : y ∈ l) : y ∈ pyInsert x l :=
  mem_pyInsert.mpr (Or.inr h)

theorem self_mem_pyInsert {α : Type} [DecidableEq α] (x : α) (l : List α) :
    x ∈ pyInsert x l :=
  mem_pyInsert.mpr (Or.inl rfl)

theorem mem_foldl_pyInsert {α : Type} [DecidableEq α] {gs l : List α} {y : α} :
    y ∈ gs.foldl (fun acc g => pyInsert g acc) l ↔ y ∈ gs ∨ y ∈ l := by
  induction gs generalizing l with
  | nil => simp
  | cons g gs ih =>
    simp only [List.foldl_cons, ih, mem_pyInsert, List.mem_cons]
    tauto

/-! ### What membership in the candidate list and a room choice guarantee -/

theorem taskAvail_mem {data : SessionData} {st : St} {task : Task} {slot : String}
    (h : slot ∈ taskAvail data st task) :
    slot ∈ slotsOf data ∧ task.teacher ∉ st.occT slot ∧
      ∀ g ∈ task.groups, g ∉ st.occG slot := by
  unfold taskAvail at h
  rw [List.mem_filter] at h
  obtain ⟨h1, h2⟩ := h
  simp only [Bool.and_eq_true, Bool.not_eq_true', decide_eq_false_iff_not,
    List.any_eq_false, decide_eq_true_eq] at h2
  exact ⟨h1, h2.1.1, h2.1.2⟩

theorem sortedAvail_subset {data : SessionData} {st : St} {task : Task} {slot : String}
    (h : slot ∈ sortedAvail data st task) : slot ∈ taskAvail data st task := by
  unfold sortedAvail at h
  rwa [List.mem_insertionSort] at h

theorem prefTarget_some {data : SessionData} {st : St} {task : Task} {stud : Int}
    {slot p : String} (h : prefTarget data st task stud slot = some p) :
    p ∉ st.occR slot ∧ fits data stud p = true ∧ task.type ≠ "lecture" ∧
      dictGet data.teacher_prefs task.teacher = some p := by
  unfold prefTarget at h
  split at h
  · rename_i hty
    split at h
    · rename_i pref hpref
      split at h
      · rename_i hcond
        cases h
        simp only [Bool.and_eq_true, Bool.not_eq_true', decide_eq_false_iff_not] at hcond
        exact ⟨hcond.1, hcond.2, by simpa using hty, hpref⟩
      · cases h
    · cases h
  · cases h

theorem tryRoom_some {data : SessionData} {st : St} {task : Task} {stud : Int}
    {slot r : String} (h : tryRoom data st task stud slot = some r) :
    r ∉ st.occR slot ∧ fits data stud r = true := by
  unfold tryRoom at h
  split at h
  · cases hfind : (freeSorted data st slot).find? (fits data stud) with
    | some r' =>
      rw [hfind] at h
      cases h
      have hf := List.find?_some hfind
      have hm := List.mem_of_find?_eq_some hfind
      unfold freeSorted at hm
      rw [List.mem_insertionSort, List.mem_filter] at hm
      refine ⟨?_, hf⟩
      have := hm.2
      simpa using this
    | none =>
      rw [hfind] at h
      exact ⟨(prefTarget_some h).1, (prefTarget_some h).2.1⟩
  · exact ⟨(prefTarget_some h).1, (prefTarget_some h).2.1⟩

theorem findSlot_some {data : SessionData} {st : St} {task : Task} {stud : Int} :
    ∀ {l : List String} {slot r : String},
      findSlot data st task stud l = some (slot, r) →
      slot ∈ l ∧ r ≠ "" ∧ tryRoom data st task stud slot = some r := by
  intro l
  induction l with
  | nil => intro slot r h; cases h
  | cons s rest ih =>
    intro slot r h
    unfold findSlot at h
    split at h
    · rename_i r' htr
      split at h
      · have h' := ih h
        exact ⟨List.mem_cons_of_mem _ h'.1, h'.2⟩
      · rename_i he
        cases h
        exact ⟨List.mem_cons_self _ _, he, htr⟩
    · rename_i htr
      have h' := ih h
      exact ⟨List.mem_cons_of_mem _ h'.1, h'.2⟩

/-! ### The no-double-booking and capacity invariants -/

/-- Two schedule entries do not clash: if they sit in the same slot they have
different teachers, disjoint group lists and different rooms. -/
def NoClashRel (a b : Entry) : Prop :=
  a.slot = b.slot →
    a.teacher ≠ b.teacher ∧ (∀ g ∈ a.groups, g ∉ b.groups) ∧ a.room ≠ b.room

instance (a b : Entry) : Decidable (NoClashRel a b) :=
  inferInstanceAs (Decidable (_ → _))

theorem noClashRel_symm {a b : Entry} (h : NoClashRel a b) : NoClashRel b a := by
  intro hs
  obtain ⟨ht, hg, hr⟩ := h hs.symm
  exact ⟨ht.symm, fun g hgb hga => hg g hga hgb, hr.symm⟩

/-- The capacity claim for one entry: the configured capacity of its room —
absent or zero capacity meaning unbounded — is at least the summed sizes of
its groups. -/
def CapOk (data : SessionData) (e : Entry) : Prop :=
  ∀ c ∈ dictGet (room_caps data) e.room, c = 0 ∨ sumSizes data e.groups ≤ c

theorem capOk_of_fits {data : SessionData} {e : Entry}
    (hf : fits data (sumSizes data e.groups) e.room = true) : CapOk data e := by
  intro c hc
  simp only [Option.mem_def] at hc
  by_cases h0 : c = 0
  · exact Or.inl h0
  · right
    unfold fits at hf
    rw [hc] at hf
    simp only [Option.getD_some, decide_eq_true_eq] at hf
    rwa [if_neg h0] at hf

/-- Everything the placement loop has recorded in the schedule so far is
also recorded in the occupancy sets. -/
def Covered (st : St) : Prop :=
  ∀ e ∈ st.sched,
    e.teacher ∈ st.occT e.slot ∧ (∀ g ∈ e.groups, g ∈ st.occG e.slot) ∧
      e.room ∈ st.occR e.slot

/-- The loop invariant of the placement engine. -/
def Inv (data : SessionData) (st : St) : Prop :=
  Covered st ∧ st.sched.Pairwise NoClashRel ∧ ∀ e ∈ st.sched, CapOk data e

theorem initSt_inv (data : SessionData) : Inv data initSt :=
  ⟨fun _ h => absurd h (List.not_mem_nil _), List.Pairwise.nil, fun _ h => absurd h (List.not_mem_nil _)⟩

theorem commit_occT_super {data : SessionData} {st : St} {task : Task}
    {slot room s y : String} (h : y ∈ st.occT s) :
    y ∈ (commit data st task slot room).occT s := by
  show y ∈ (if s = slot then pyInsert task.teacher (st.occT s) else st.occT s)
  split
  · exact mem_pyInsert_of_mem h
  · exact h

theorem commit_occG_super {data : SessionData} {st : St} {task : Task}
    {slot room s y : String} (h : y ∈ st.occG s) :
    y ∈ (commit data st task slot room).occG s := by
  show y ∈ (if s = slot then task.groups.foldl (fun acc g => pyInsert g acc) (st.occG s)
    else st.occG s)
  split
  · exact mem_foldl_pyInsert.mpr (Or.inr h)
  · exact h

theorem commit_occR_super {data : SessionData} {st : St} {task : Task}
    {slot room s y : String} (h : y ∈ st.occR s) :
    y ∈ (commit data st task slot room).occR s := by
  show y ∈ (if s = slot then pyInsert room (st.occR s) else st.occR s)
  split
  · exact mem_pyInsert_of_mem h
  · exact h

theorem commit_sched (data : SessionData) (st : St) (task : Task) (slot room : String) :
    (commit data st task slot room).sched = st.sched ++ [mkEntry data task slot room] :=
  rfl

theorem mkEntry_slot (data : SessionData) (task : Task) (slot room : String) :
    (mkEntry data task slot room).slot = slot := rfl

theorem mkEntry_teacher (data : SessionData) (task : Task) (slot room : String) :
    (mkEntry data task slot room).teacher = task.teacher := rfl

theorem mkEntry_groups (data : SessionData) (task : Task) (slot room : String) :
    (mkEntry data task slot room).groups = task.groups := rfl

theorem mkEntry_room (data : SessionData) (task : Task) (slot room : String) :
    (mkEntry data task slot room).room = room := rfl

/-- Committing a placement found by `findSlot` on a candidate slot preserves
the invariant. -/
theorem commit_inv {data : SessionData} {st : St} {task : Task} {slot room : String}
    (hInv : Inv data st) (hslot : slot ∈ taskAvail data st task)
    (htr : tryRoom data st task (sumSizes data task.groups) slot = some room) :
    Inv data (commit data st task slot room) := by
  obtain ⟨hC, hP, hCap⟩ := hInv
  obtain ⟨-, hT, hG⟩ := taskAvail_mem hslot
  obtain ⟨hR, hfit⟩ := tryRoom_some htr
  have heslot : (mkEntry data task slot room).slot = slot := rfl
  have hcross : ∀ a ∈ st.sched, NoClashRel a (mkEntry data task slot room) := by
    intro a ha hs
    obtain ⟨h1, h2, h3⟩ := hC a ha
    have hs' : a.slot = slot := hs
    rw [hs'] at h1 h2 h3
    refine ⟨?_, ?_, ?_⟩
    · intro he
      rw [mkEntry_teacher] at he
      exact hT (he ▸ h1)
    · intro g hg hge
      rw [mkEntry_groups] at hge
      exact hG g hge (h2 g hg)
    · intro he
      rw [mkEntry_room] at he
      exact hR (he ▸ h3)
  refine ⟨?_, ?_, ?_⟩
  · intro f hf
    rw [commit_sched, List.mem_append] at hf
    rcases hf with hf | hf
    · obtain ⟨h1, h2, h3⟩ := hC f hf
      exact ⟨commit_occT_super h1, fun g hg => commit_occG_super (h2 g hg),
        commit_occR_super h3⟩
    · rw [List.mem_singleton] at hf
      subst hf
      refine ⟨?_, ?_, ?_⟩
      · show task.teacher ∈ (if slot = slot then pyInsert task.teacher (st.occT slot)
          else st.occT slot)
        rw [if_pos rfl]
        exact self_mem_pyInsert _ _
      · intro g hg
        show g ∈ (if slot = slot then
          task.groups.foldl (fun acc g => pyInsert g acc) (st.occG slot) else st.occG slot)
        rw [if_pos rfl]
        exact mem_foldl_pyInsert.mpr (Or.inl hg)
      · show room ∈ (if slot = slot then pyInsert room (st.occR slot) else st.occR slot)
        rw [if_pos rfl]
        exact self_mem_pyInsert _ _
  · rw [commit_sched, List.pairwise_append]
    exact ⟨hP, List.pairwise_singleton _ _, fun a ha b hb => by
      rw [List.mem_singleton] at hb
      exact hb ▸ hcross a ha⟩
  · intro f hf
    rw [commit_sched, List.mem_append] at hf
    rcases hf with hf | hf
    · exact hCap f hf
    · rw [List.mem_singleton] at hf
      subst hf
      exact capOk_of_fits hfit

/-- One step of the task loop preserves the invariant. -/
theorem stepTask_inv {data : SessionData} {st st' : St} {task : Task}
    (hInv : Inv data st) (h : stepTask data st task = .ok st') : Inv data st' := by
  unfold stepTask at h
  split at h
  · cases h
    exact hInv
  · split at h
    · cases h
    · split at h
      · rename_i slot room heq
        cases h
        obtain ⟨hmem, -, htr⟩ := findSlot_some heq
        exact commit_inv hInv (sortedAvail_subset hmem) htr
      · cases h
        exact hInv

/-- The whole task loop preserves the invariant. -/
theorem runTasks_inv {data : SessionData} :
    ∀ {ts : List Task} {st st' : St}, Inv data st →
      runTasks data st ts = .ok st' → Inv data st' := by
  intro ts
  induction ts with
  | nil =>
    intro st st' hInv h
    cases h
    exact hInv
  | cons t ts ih =>
    intro st st' hInv h
    unfold runTasks at h
    split at h
    · cases h
    · rename_i st1 hstep
      exact ih (stepTask_inv hInv hstep) h

/-! ### Conservation of tasks and the shape of the diagnostics -/

theorem commit_errs (data : SessionData) (st : St) (task : Task) (slot room : String) :
    (commit data st task slot room).errs = st.errs :=
  rfl

/-- Every step that returns normally adds exactly one schedule entry or
exactly one diagnostic string. -/
theorem stepTask_count {data : SessionData} {st st' : St} {task : Task}
    (h : stepTask data st task = .ok st') :
    st'.sched.length + st'.errs.length = st.sched.length + st.errs.length + 1 := by
  unfold stepTask at h
  split at h
  · cases h
    simp only [List.length_append, List.length_singleton]
    omega
  · split at h
    · cases h
    · split at h
      · rename_i slot room heq
        cases h
        simp only [commit_sched, commit_errs, List.length_append, List.length_singleton]
        omega
      · cases h
        simp only [List.length_append, List.length_singleton]
        omega

theorem runTasks_count {data : SessionData} :
    ∀ {ts : List Task} {st st' : St}, runTasks data st ts = .ok st' →
      st'.sched.length + st'.errs.length =
        st.sched.length + st.errs.length + ts.length := by
  intro ts
  induction ts with
  | nil =>
    intro st st' h
    cases h
    simp
  | cons t ts ih =>
    intro st st' h
    unfold runTasks at h
    split at h
    · cases h
    · rename_i st1 hstep
      have h1 := ih h
      have h2 := stepTask_count hstep
      simp only [List.length_cons]
      omega

/-- Each diagnostic string is the formatted message of some task, with one
of the two possible reasons. -/
def ErrForm (s : String) : Prop :=
  ∃ t : Task, s = errString t msgNoTime ∨ s = errString t msgNoRoom

theorem stepTask_errform {data : SessionData} {st st' : St} {task : Task}
    (h : stepTask data st task = .ok st') (hall : ∀ s ∈ st.errs, ErrForm s) :
    ∀ s ∈ st'.errs, ErrForm s := by
  unfold stepTask at h
  split at h
  · cases h
    intro s hs
    rcases List.mem_append.mp hs with hs | hs
    · exact hall s hs
    · rw [List.mem_singleton] at hs
      exact ⟨task, Or.inl hs⟩
  · split at h
    · cases h
    · split at h
      · rename_i slot room heq
        cases h
        exact hall
      · cases h
        intro s hs
        rcases List.mem_append.mp hs with hs | hs
        · exact hall s hs
        · rw [List.mem_singleton] at hs
          exact ⟨task, Or.inr hs⟩

theorem runTasks_errform {data : SessionData} :
    ∀ {ts : List Task} {st st' : St}, runTasks data st ts = .ok st' →
      (∀ s ∈ st.errs, ErrForm s) → ∀ s ∈ st'.errs, ErrForm s := by
  intro ts
  induction ts with
  | nil =>
    intro st st' h hall
    cases h
    exact hall
  | cons t ts ih =>
    intro st st' h hall
    unfold runTasks at h
    split at h
    · cases h
    · rename_i st1 hstep
      exact ih h (stepTask_errform hstep hall)

/-- A task whose candidate list is empty is reported with the
no-common-free-time reason, and nothing else changes. -/
theorem stepTask_avail_empty {data : SessionData} {st : St} {task : Task}
    (h : taskAvail data st task = []) :
    stepTask data st task = .ok { st with errs := st.errs ++ [errString task msgNoTime] } := by
  unfold stepTask
  rw [h]
  rfl

/-- A task with a non-empty candidate list (and a teacher the scoring step
can look up) in which no candidate slot yields a usable room is reported
with the capacity-failure reason — the `reason` kept by the loop of main.py
lines 177-213, set at line 213 by every failing candidate slot — and
nothing else changes. -/
theorem stepTask_no_room {data : SessionData} {st : St} {task : Task}
    (hne : taskAvail data st task ≠ [])
    (ht : task.teacher ∈ data.teachers)
    (hfind : findSlot data st task (sumSizes data task.groups)
      (sortedAvail data st task) = none) :
    stepTask data st task = .ok { st with errs := st.errs ++ [errString task msgNoRoom] } := by
  have h1 : ¬ ((taskAvail data st task).isEmpty = true) := fun h =>
    hne (List.isEmpty_iff.mp h)
  have h2 : ¬ ((!decide (task.teacher ∈ data.teachers)) = true) := by
    simp [ht]
  unfold stepTask
  rw [if_neg h1, if_neg h2, hfind]

/-! ### The slot grid and the top-level control flow -/

theorem slotsOf_eq_nil_iff (data : SessionData) :
    slotsOf data = [] ↔ data.days = [] ∨ data.times = [] := by
  unfold slotsOf
  rw [List.flatten_eq_nil_iff]
  constructor
  · intro h
    by_cases hd : data.days = []
    · exact Or.inl hd
    · right
      obtain ⟨d, hdm⟩ := List.exists_mem_of_ne_nil data.days hd
      have := h (data.times.map (fun t => d ++ " " ++ t)) (List.mem_map_of_mem _ hdm)
      exact List.map_eq_nil_iff.mp this
  · rintro (h | h) <;> intro l hl <;> simp [h] at hl ⊢
    exact hl.2

/-- The two normal-return shapes of `generate_schedule`. -/
theorem generate_schedule_ok_cases {data : SessionData} {res : GenResult}
    (h : generate_schedule data = .ok res) :
    (slotsOf data = [] ∧
      res = { status := "error", message := some msgNoSlots, schedule := [], errors := [] }) ∨
    (slotsOf data ≠ [] ∧ ∃ st, runTasks data initSt (sortedTasks data) = .ok st ∧
      res = { status := "success", message := none,
              schedule := st.sched.insertionSort (fun a b =>
                (slotsOf data).findIdx (fun s => s == a.slot) ≤
                  (slotsOf data).findIdx (fun s => s == b.slot)),
              errors := st.errs }) := by
  unfold generate_schedule at h
  split at h
  · rename_i hempty
    cases h
    exact Or.inl ⟨List.isEmpty_iff.mp hempty, rfl⟩
  · rename_i hne
    split at h
    · cases h
    · rename_i st hrun
      cases h
      refine Or.inr ⟨?_, st, hrun, rfl⟩
      intro hnil
      exact hne (List.isEmpty_iff.mpr hnil)

theorem length_sortedTasks (data : SessionData) :
    (sortedTasks data).length = (tasksOf data).length := by
  unfold sortedTasks
  rw [List.length_insertionSort]

/-! ### Concrete inputs used by the witnesses -/

/-- A regular input: one teacher, two groups of five, one room for ten,
one lecture over both groups, two slots. -/
def wData : SessionData :=
  { teachers := ["T"], groups := [⟨"A", 5⟩, ⟨"B", 5⟩], rooms := [⟨"R", 10⟩],
    assignments := [⟨"T", ["A", "B"], "S", 1, "lecture"⟩],
    days := ["Mon"], times := ["9", "10"] }

/-- The entry `generate_schedule wData` produces. -/
def wEntry : Entry :=
  { slot := "Mon 9", day := "Mon", time := "9", teacher := "T", group := "A, B",
    groups := ["A", "B"], subject := "S", room := "R", type := "lecture" }

/-- The response `generate_schedule wData` produces. -/
def wRes : GenResult :=
  { status := "success", message := none, schedule := [wEntry], errors := [] }

/-- An input with no days, hence an empty slot grid. -/
def wEmpty : SessionData :=
  { teachers := [], groups := [], rooms := [], assignments := [],
    days := [], times := ["9:00"] }

/-! ### The claims -/

/-- C1: for every input with at least one slot, the returned schedule has no
double-booking: any two distinct entries in the same slot have different
teachers, disjoint group lists and different rooms. -/
theorem C1_no_double_booking {data : SessionData} {res : GenResult}
    (hdays : data.days ≠ []) (htimes : data.times ≠ [])
    (hok : generate_schedule data = .ok res) :
    res.schedule.Pairwise NoClashRel := by
  rcases generate_schedule_ok_cases hok with ⟨-, rfl⟩ | ⟨-, st, hrun, rfl⟩
  · exact List.Pairwise.nil
  · have hInv := runTasks_inv (initSt_inv data) hrun
    have hperm := List.perm_insertionSort (fun a b : Entry =>
      (slotsOf data).findIdx (fun s => s == a.slot) ≤
        (slotsOf data).findIdx (fun s => s == b.slot)) st.sched
    exact (List.Perm.pairwise_iff (fun h => noClashRel_symm h) hperm).mpr hInv.2.1

theorem C1_no_double_booking_witness :
    wData.days ≠ [] ∧ wData.times ≠ [] ∧ generate_schedule wData = .ok wRes ∧
      wRes.schedule.Pairwise NoClashRel :=
  ⟨by decide, by decide, by decide,
    @C1_no_double_booking wData wRes (by decide) (by decide) (by decide)⟩

/-- C2: every produced entry fits its room: the configured capacity of the
assigned room — a missing or zero capacity meaning unbounded — is at least
the sum of the sizes of the entry's groups (sizes looked up by name,
defaulting to 0). -/
theorem C2_capacity_safe {data : SessionData} {res : GenResult}
    (hok : generate_schedule data = .ok res) :
    ∀ e ∈ res.schedule, CapOk data e := by
  rcases generate_schedule_ok_cases hok with ⟨-, rfl⟩ | ⟨-, st, hrun, rfl⟩
  · intro e he
    exact absurd he (List.not_mem_nil _)
  · intro e he
    have hInv := runTasks_inv (initSt_inv data) hrun
    rw [List.mem_insertionSort] at he
    exact hInv.2.2 e he

theorem C2_capacity_safe_witness :
    generate_schedule wData = .ok wRes ∧ ∀ e ∈ wRes.schedule, CapOk wData e :=
  ⟨by decide, @C2_capacity_safe wData wRes (by decide)⟩

/-- C3: with an empty day list or an empty time list the operation returns a
value (no exception) with status "error", the fixed message, an empty
schedule and empty diagnostics; any other normal return has status
"success". -/
theorem C3_zero_slots_status (data : SessionData) :
    ((data.days = [] ∨ data.times = []) →
      generate_schedule data =
        .ok { status := "error", message := some msgNoSlots, schedule := [], errors := [] }) ∧
    (∀ res : GenResult, generate_schedule data = .ok res →
      data.days ≠ [] → data.times ≠ [] → res.status = "success") := by
  constructor
  · intro hor
    have hnil : slotsOf data = [] := (slotsOf_eq_nil_iff data).mpr hor
    unfold generate_schedule
    rw [hnil]
    rfl
  · intro res h hd ht
    rcases generate_schedule_ok_cases h with ⟨hnil, rfl⟩ | ⟨-, st, hrun, rfl⟩
    · rcases (slotsOf_eq_nil_iff data).mp hnil with h' | h'
      · exact absurd h' hd
      · exact absurd h' ht
    · rfl

theorem C3_zero_slots_status_witness :
    generate_schedule wEmpty =
      .ok { status := "error", message := some msgNoSlots, schedule := [], errors := [] } ∧
    wRes.status = "success" :=
  ⟨(C3_zero_slots_status wEmpty).1 (Or.inl rfl),
    (C3_zero_slots_status wData).2 wRes (by decide) (by decide) (by decide)⟩

/-- C9: on a non-empty slot grid, a normal return satisfies conservation —
entries plus diagnostics equal the number of expanded tasks; every
diagnostic carries one of the two reasons; a task with an empty candidate
list is reported exactly once with the no-common-free-time reason; and a
task with a non-empty candidate list none of whose slots yields a room is
reported exactly once with the last capacity-failure reason observed. -/
theorem C9_conservation {data : SessionData} {res : GenResult}
    (hslots : slotsOf data ≠ []) (hok : generate_schedule data = .ok res) :
    res.schedule.length + res.errors.length = (tasksOf data).length ∧
    (∀ s ∈ res.errors, ErrForm s) ∧
    (∀ (st : St) (task : Task), taskAvail data st task = [] →
      stepTask data st task =
        .ok { st with errs := st.errs ++ [errString task msgNoTime] }) ∧
    (∀ (st : St) (task : Task), taskAvail data st task ≠ [] →
      task.teacher ∈ data.teachers →
      findSlot data st task (sumSizes data task.groups) (sortedAvail data st task) = none →
      stepTask data st task =
        .ok { st with errs := st.errs ++ [errString task msgNoRoom] }) := by
  rcases generate_schedule_ok_cases hok with ⟨hnil, -⟩ | ⟨-, st, hrun, rfl⟩
  · exact absurd hnil hslots
  · refine ⟨?_, ?_, fun st' task hav => stepTask_avail_empty hav,
      fun st' task hne ht hfind => stepTask_no_room hne ht hfind⟩
    · have hc := runTasks_count hrun
      have hst : (sortedTasks data).length = (tasksOf data).length := length_sortedTasks data
      show (st.sched.insertionSort _).length + st.errs.length = (tasksOf data).length
      rw [List.length_insertionSort]
      simp only [initSt, List.length_nil] at hc
      omega
    · intro s hs
      exact runTasks_errform hrun (fun s h => absurd h (List.not_mem_nil _)) s hs

/-- An input whose single lecture task finds a candidate slot but no room
of sufficient capacity (group of 10, room for 5). -/
def wCap : SessionData :=
  { teachers := ["T"], groups := [⟨"G", 10⟩], rooms := [⟨"R", 5⟩],
    assignments := [⟨"T", ["G"], "S", 1, "lecture"⟩],
    days := ["Mon"], times := ["9:00"] }

/-- The response `generate_schedule wCap` produces: nothing placed, one
diagnostic with the capacity-failure reason. -/
def wCapRes : GenResult :=
  { status := "success", message := none, schedule := [],
    errors := [errString ⟨"T", ["G"], "S", "lecture"⟩ msgNoRoom] }

theorem C9_conservation_witness :
    slotsOf wData ≠ [] ∧ generate_schedule wData = .ok wRes ∧
      wRes.schedule.length + wRes.errors.length = (tasksOf wData).length ∧
      generate_schedule wCap = .ok wCapRes ∧
      stepTask wCap initSt ⟨"T", ["G"], "S", "lecture"⟩ =
        .ok { initSt with
              errs := initSt.errs ++ [errString ⟨"T", ["G"], "S", "lecture"⟩ msgNoRoom] } :=
  ⟨by decide, by decide, (@C9_conservation wData wRes (by decide) (by decide)).1,
    by decide,
    (@C9_conservation wCap wCapRes (by decide) (by decide)).2.2.2 initSt
      ⟨"T", ["G"], "S", "lecture"⟩ (by decide) (by decide) (by decide)⟩

/-- An input whose single assignment names a teacher absent from
`teachers`, with a non-empty grid and a candidate slot for the task. -/
def wKeyErr : SessionData :=
  { teachers := [], groups := [⟨"G1", 10⟩], rooms := [⟨"R", 20⟩],
    assignments := [⟨"T", ["G1"], "S", 1, "seminar"⟩],
    days := ["Mon"], times := ["9:00"] }

/-- C10: with a non-empty slot grid and an assignment whose teacher is
absent from `teachers` and whose expanded task has a candidate slot, the
scoring step raises an uncaught KeyError instead of returning a response. -/
theorem C10_missing_teacher_keyerror :
    generate_schedule wKeyErr = .error "KeyError: T" ∧
    slotsOf wKeyErr ≠ [] ∧
    "T" ∉ wKeyErr.teachers ∧
    tasksOf wKeyErr = [⟨"T", ["G1"], "S", "seminar"⟩] ∧
    taskAvail wKeyErr initSt ⟨"T", ["G1"], "S", "seminar"⟩ ≠ [] := by
  decide

/-! ### The specification's reference expansion algorithm (for C5)

The following definitions transcribe the expansion rules as the
specification words them (spec §4.2), to be compared with `tasksOf`, which
was translated from the code. -/

/-- One step of the specification's first-fit walk over the size-descending
group list: a group larger than the bound becomes its own singleton stream;
otherwise it joins the running stream if the running total stays within the
bound, and else closes the running stream and starts a new one.  The state
is `(closed streams, running stream, running total)`. -/
def specStreamStep (data : SessionData) (cap : Int)
    (acc : List (List String) × List String × Int) (g : String) :
    List (List String) × List String × Int :=
  if cap < group_sizes data g then (acc.1 ++ [[g]], acc.2.1, acc.2.2)
  else if acc.2.2 + group_sizes data g ≤ cap then
    (acc.1, acc.2.1 ++ [g], acc.2.2 + group_sizes data g)
  else (acc.1 ++ (if acc.2.1.isEmpty then [] else [acc.2.1]), [g], group_sizes data g)

/-- Close the final stream if non-empty (spec §4.2, rule 5). -/
def closeStreams (acc : List (List String) × List String × Int) :
    List (List String) :=
  acc.1 ++ (if acc.2.1.isEmpty then [] else [acc.2.1])

/-- The specification's stream packing: walk the group list with the
first-fit step starting from no streams, then close the final stream. -/
def specStreams (data : SessionData) (cap : Int) (gs : List String) :
    List (List String) :=
  closeStreams (gs.foldl (specStreamStep data cap) ([], [], 0))

/-- The specification's task expansion: each seminar assignment yields, per
group, `count` tasks on that single group; each other assignment is packed
into streams of its size-descending group list bounded by `maxRoomCapacity`,
each stream yielding `count` tasks. -/
def specExpand (data : SessionData) : List Task :=
  (data.assignments.map (fun a =>
    if a.type == "seminar" then
      (a.groups.map (fun g =>
        List.replicate a.count.toNat (Task.mk a.teacher [g] a.subject "seminar"))).flatten
    else
      ((specStreams data (max_cap data) (sorted_groups data a.groups)).map (fun s =>
        List.replicate a.count.toNat (Task.mk a.teacher s a.subject "lecture"))).flatten)).flatten

theorem packStreams_eq_foldl (data : SessionData) (cap : Int) :
    ∀ (gs cur : List String) (csize : Int) (streams : List (List String)),
      packStreams data cap gs cur csize streams =
        closeStreams (gs.foldl (specStreamStep data cap) (streams, cur, csize)) := by
  intro gs
  induction gs with
  | nil =>
    intro cur csize streams
    unfold packStreams closeStreams
    split <;> simp_all
  | cons g rest ih =>
    intro cur csize streams
    rw [List.foldl_cons]
    have hL0 : packStreams data cap (g :: rest) cur csize streams =
        if cap < group_sizes data g then
          packStreams data cap rest cur csize (streams ++ [[g]])
        else if csize + group_sizes data g ≤ cap then
          packStreams data cap rest (cur ++ [g]) (csize + group_sizes data g) streams
        else
          packStreams data cap rest [g] (group_sizes data g)
            (if cur.isEmpty then streams else streams ++ [cur]) := rfl
    have hR0 : specStreamStep data cap (streams, cur, csize) g =
        if cap < group_sizes data g then (streams ++ [[g]], cur, csize)
        else if csize + group_sizes data g ≤ cap then
          (streams, cur ++ [g], csize + group_sizes data g)
        else (streams ++ (if cur.isEmpty then [] else [cur]), [g], group_sizes data g) := rfl
    rw [hL0, hR0]
    by_cases h1 : cap < group_sizes data g
    · rw [if_pos h1, if_pos h1, ih]
    · by_cases h2 : csize + group_sizes data g ≤ cap
      · rw [if_neg h1, if_neg h1, if_pos h2, if_pos h2, ih]
      · rw [if_neg h1, if_neg h1, if_neg h2, if_neg h2, ih]
        have heq : (if cur.isEmpty then streams else streams ++ [cur]) =
            streams ++ (if cur.isEmpty then [] else [cur]) := by
          split <;> simp
        rw [heq]

theorem specStreams_eq_packStreams (data : SessionData) (cap : Int) (gs : List String) :
    specStreams data cap gs = packStreams data cap gs [] 0 [] :=
  (packStreams_eq_foldl data cap gs [] 0 []).symm

/-- C5: task expansion follows exactly the reference algorithm of the
specification: the code's expanded task list coincides, on every input,
with the expansion built from the spec's own description (seminar groups
expanded singly, lecture groups packed first-fit over the size-descending
order, `count` repetitions each). -/
theorem C5_expansion_follows_spec (data : SessionData) :
    tasksOf data = specExpand data := by
  unfold tasksOf specExpand
  apply congrArg List.flatten
  apply List.map_congr_left
  intro a _
  unfold tasksFor
  split
  · rfl
  · rw [specStreams_eq_packStreams]
    rfl

/-! ### The lecture-stream bound (C4) -/

theorem pyMaxInt_mem (x : Int) (xs : List Int) : pyMaxInt (x :: xs) ∈ x :: xs := by
  induction xs generalizing x with
  | nil => simp [pyMaxInt]
  | cons y ys ih =>
    have h : pyMaxInt (x :: y :: ys) = pyMaxInt (max x y :: ys) := rfl
    rw [h]
    rcases List.mem_cons.mp (ih (max x y)) with h1 | h1
    · rcases max_choice x y with hm | hm
      · rw [h1, hm]
        exact List.mem_cons_self _ _
      · rw [h1, hm]
        exact List.mem_cons_of_mem _ (List.mem_cons_self _ _)
    · exact List.mem_cons_of_mem _ (List.mem_cons_of_mem _ h1)

theorem pyMaxInt_ub (x : Int) (xs : List Int) : ∀ c ∈ x :: xs, c ≤ pyMaxInt (x :: xs) := by
  induction xs generalizing x with
  | nil =>
    intro c hc
    rw [List.mem_singleton] at hc
    subst hc
    exact le_refl _
  | cons y ys ih =>
    intro c hc
    have h : pyMaxInt (x :: y :: ys) = pyMaxInt (max x y :: ys) := rfl
    rw [h]
    have hub := ih (max x y)
    rcases List.mem_cons.mp hc with rfl | hc'
    · exact le_trans (le_max_left c y) (hub _ (List.mem_cons_self _ _))
    · rcases List.mem_cons.mp hc' with rfl | hc''
      · exact le_trans (le_max_right x c) (hub _ (List.mem_cons_self _ _))
      · exact hub c (List.mem_cons_of_mem _ hc'')

/-- When every group exceeds the bound, the packing loop emits one singleton
stream per group (in order) and finally closes the running stream. -/
theorem packStreams_all_big (data : SessionData) (cap : Int) :
    ∀ (gs cur : List String) (csize : Int) (streams : List (List String)),
      (∀ g ∈ gs, cap < group_sizes data g) →
      packStreams data cap gs cur csize streams =
        streams ++ gs.map (fun g => [g]) ++ (if cur.isEmpty then [] else [cur]) := by
  intro gs
  induction gs with
  | nil =>
    intro cur csize streams h
    unfold packStreams
    split <;> simp_all
  | cons g rest ih =>
    intro cur csize streams h
    have hL0 : packStreams data cap (g :: rest) cur csize streams =
        if cap < group_sizes data g then
          packStreams data cap rest cur csize (streams ++ [[g]])
        else if csize + group_sizes data g ≤ cap then
          packStreams data cap rest (cur ++ [g]) (csize + group_sizes data g) streams
        else
          packStreams data cap rest [g] (group_sizes data g)
            (if cur.isEmpty then streams else streams ++ [cur]) := rfl
    rw [hL0, if_pos (h g (List.mem_cons_self _ _))]
    rw [ih cur csize (streams ++ [[g]]) (fun g' hg' => h g' (List.mem_cons_of_mem _ hg'))]
    simp

/-- The input of the C4 counterexample: no rooms, one lecture over two
groups of five. -/
def c4Data : SessionData :=
  { teachers := ["T"], groups := [⟨"A", 5⟩, ⟨"B", 5⟩], rooms := [],
    assignments := [⟨"T", ["A", "B"], "S", 1, "lecture"⟩],
    days := ["Mon"], times := ["9"] }

/-- The single assignment of `c4Data`. -/
def c4Assign : Assignment := ⟨"T", ["A", "B"], "S", 1, "lecture"⟩

/-- C4 fails on the code: with no rooms configured, `max_cap` stays `0`
instead of being treated as unbounded, so the lecture's two groups are each
forced into their own singleton stream (two tasks), whereas the unbounded
bound would merge them into one stream. -/
theorem C4_counterexample :
    c4Data.rooms = [] ∧
    max_cap c4Data = 0 ∧
    streamsFor c4Data c4Assign = [["A"], ["B"]] ∧
    tasksOf c4Data = [⟨"T", ["A"], "S", "lecture"⟩, ⟨"T", ["B"], "S", "lecture"⟩] ∧
    packStreams c4Data 9999 (sorted_groups c4Data c4Assign.groups) [] 0 [] = [["A", "B"]] := by
  decide

/-- C4 (amended): the bound `max_cap` is the largest capacity among the
configured rooms, replaced by the unbounded sentinel 9999 exactly when rooms
exist and that largest capacity is zero; when no rooms are configured the
bound is `0`, so every lecture group of positive size becomes its own
singleton stream. -/
theorem C4_maxcap (data : SessionData) (a : Assignment) :
    (data.rooms ≠ [] → ∃ m, m ∈ data.rooms.map (fun r => r.capacity) ∧
      (∀ c ∈ data.rooms.map (fun r => r.capacity), c ≤ m) ∧
      max_cap data = (if m = 0 then 9999 else m)) ∧
    (data.rooms = [] → max_cap data = 0 ∧
      ((∀ g ∈ a.groups, 0 < group_sizes data g) →
        streamsFor data a = (sorted_groups data a.groups).map (fun g => [g]))) := by
  constructor
  · intro hne
    cases hr : data.rooms with
    | nil => exact absurd hr hne
    | cons r rs =>
      refine ⟨pyMaxInt ((r :: rs).map (fun r => r.capacity)), ?_, ?_, ?_⟩
      · rw [List.map_cons]
        exact pyMaxInt_mem _ _
      · rw [List.map_cons]
        exact pyMaxInt_ub _ _
      · unfold max_cap
        rw [hr]
        rfl
  · intro hnil
    have hcap : max_cap data = 0 := by
      unfold max_cap
      rw [hnil]
      rfl
    refine ⟨hcap, ?_⟩
    intro hpos
    unfold streamsFor
    rw [hcap]
    rw [packStreams_all_big data 0 (sorted_groups data a.groups) [] 0 []]
    · simp
    · intro g hg
      unfold sorted_groups at hg
      rw [List.mem_insertionSort] at hg
      exact hpos g hg

theorem C4_maxcap_witness :
    (max_cap c4Data = 0 ∧
      streamsFor c4Data c4Assign = (sorted_groups c4Data c4Assign.groups).map (fun g => [g])) ∧
    (∃ m, m ∈ wData.rooms.map (fun r => r.capacity) ∧
      (∀ c ∈ wData.rooms.map (fun r => r.capacity), c ≤ m) ∧
      max_cap wData = (if m = 0 then 9999 else m)) :=
  ⟨⟨((C4_maxcap c4Data c4Assign).2 rfl).1,
    ((C4_maxcap c4Data c4Assign).2 rfl).2 (by decide)⟩,
   (C4_maxcap wData c4Assign).1 (by decide)⟩

/-! ### The task priority order (C6) -/

theorem keyLe_total (k1 k2 : Nat × Nat × Int) : keyLe k1 k2 ∨ keyLe k2 k1 := by
  unfold keyLe
  omega

theorem keyLe_trans {k1 k2 k3 : Nat × Nat × Int}
    (h1 : keyLe k1 k2) (h2 : keyLe k2 k3) : keyLe k1 k3 := by
  unfold keyLe at h1 h2 ⊢
  omega

theorem keyLe_refl (k : Nat × Nat × Int) : keyLe k k := by
  unfold keyLe
  omega

/-- Every expanded task's type is the string "lecture" or "seminar". -/
theorem tasksOf_type (data : SessionData) :
    ∀ t ∈ tasksOf data, t.type = "lecture" ∨ t.type = "seminar" := by
  intro t ht
  unfold tasksOf at ht
  rw [List.mem_flatten] at ht
  obtain ⟨l, hl, htl⟩ := ht
  rw [List.mem_map] at hl
  obtain ⟨a, -, rfl⟩ := hl
  unfold tasksFor at htl
  split at htl
  · rw [List.mem_flatten] at htl
    obtain ⟨l2, hl2, h2⟩ := htl
    rw [List.mem_map] at hl2
    obtain ⟨g, -, rfl⟩ := hl2
    rw [List.eq_of_mem_replicate h2]
    exact Or.inr rfl
  · rw [List.mem_flatten] at htl
    obtain ⟨l2, hl2, h2⟩ := htl
    rw [List.mem_map] at hl2
    obtain ⟨s, -, rfl⟩ := hl2
    rw [List.eq_of_mem_replicate h2]
    exact Or.inl rfl

/-- C6: before placement the task list is stable-sorted descending by the
composite key (is-lecture, group count, total enrollment): the sorted list
is a permutation of the expansion, pairwise descending in the key, ties keep
creation order, every task is a lecture or a seminar task, and every
lecture task precedes every seminar task. -/
theorem C6_task_order (data : SessionData) :
    List.Perm (sortedTasks data) (tasksOf data) ∧
    (sortedTasks data).Pairwise (fun a b => keyLe (taskKey data b) (taskKey data a)) ∧
    (∀ a b : Task, List.Sublist [a, b] (tasksOf data) → taskKey data a = taskKey data b →
      List.Sublist [a, b] (sortedTasks data)) ∧
    (∀ t ∈ tasksOf data, t.type = "lecture" ∨ t.type = "seminar") ∧
    (sortedTasks data).Pairwise (fun a b => b.type = "lecture" → a.type = "lecture") := by
  haveI instTot : IsTotal Task (fun a b => keyLe (taskKey data b) (taskKey data a)) :=
    ⟨fun a b => keyLe_total _ _⟩
  haveI instTrans : IsTrans Task (fun a b => keyLe (taskKey data b) (taskKey data a)) :=
    ⟨fun _ _ _ hab hbc => keyLe_trans hbc hab⟩
  have hsorted : (sortedTasks data).Pairwise
      (fun a b => keyLe (taskKey data b) (taskKey data a)) :=
    List.sorted_insertionSort _ _
  refine ⟨List.perm_insertionSort _ _, hsorted, ?_, tasksOf_type data, ?_⟩
  · intro a b hsub heq
    exact List.pair_sublist_insertionSort (by rw [heq]; exact keyLe_refl _) hsub
  · refine hsorted.imp ?_
    intro a b hab hb
    by_cases ha : a.type = "lecture"
    · exact ha
    · exfalso
      have h1 : (taskKey data b).1 = 1 := by simp [taskKey, hb]
      have h0 : (taskKey data a).1 = 0 := by simp [taskKey, ha]
      unfold keyLe at hab
      omega

theorem C6_task_order_witness :
    List.Sublist [(⟨"T", ["A"], "S", "lecture"⟩ : Task), ⟨"T", ["B"], "S", "lecture"⟩] (tasksOf c4Data) ∧
    taskKey c4Data ⟨"T", ["A"], "S", "lecture"⟩ = taskKey c4Data ⟨"T", ["B"], "S", "lecture"⟩ ∧
    List.Sublist [(⟨"T", ["A"], "S", "lecture"⟩ : Task), ⟨"T", ["B"], "S", "lecture"⟩] (sortedTasks c4Data) ∧
    List.Perm (sortedTasks c4Data) (tasksOf c4Data) :=
  ⟨by decide, by decide,
    (C6_task_order c4Data).2.2.1 _ _ (by decide) (by decide),
    (C6_task_order c4Data).1⟩

/-! ### The gap-avoidance scoring and the candidate order (C7) -/

theorem pyMinInt_mem (x : Int) (xs : List Int) : pyMinInt (x :: xs) ∈ x :: xs := by
  induction xs generalizing x with
  | nil => simp [pyMinInt]
  | cons y ys ih =>
    have h : pyMinInt (x :: y :: ys) = pyMinInt (min x y :: ys) := rfl
    rw [h]
    rcases List.mem_cons.mp (ih (min x y)) with h1 | h1
    · rcases min_choice x y with hm | hm
      · rw [h1, hm]
        exact List.mem_cons_self _ _
      · rw [h1, hm]
        exact List.mem_cons_of_mem _ (List.mem_cons_self _ _)
    · exact List.mem_cons_of_mem _ (List.mem_cons_of_mem _ h1)

theorem pyMinInt_lb (x : Int) (xs : List Int) : ∀ c ∈ x :: xs, pyMinInt (x :: xs) ≤ c := by
  induction xs generalizing x with
  | nil =>
    intro c hc
    rw [List.mem_singleton] at hc
    subst hc
    exact le_refl _
  | cons y ys ih =>
    intro c hc
    have h : pyMinInt (x :: y :: ys) = pyMinInt (min x y :: ys) := rfl
    rw [h]
    have hlb := ih (min x y)
    rcases List.mem_cons.mp hc with rfl | hc'
    · exact le_trans (hlb _ (List.mem_cons_self _ _)) (min_le_left c y)
    · rcases List.mem_cons.mp hc' with rfl | hc''
      · exact le_trans (hlb _ (List.mem_cons_self _ _)) (min_le_right x c)
      · exact hlb c (List.mem_cons_of_mem _ hc'')

/-- The fold computing Python's `min` indeed returns the minimum. -/
theorem pyMinInt_eq {x d : Int} {xs : List Int} (hmem : d ∈ x :: xs)
    (hlb : ∀ c ∈ x :: xs, d ≤ c) : pyMinInt (x :: xs) = d :=
  le_antisymm (pyMinInt_lb x xs d hmem) (hlb _ (pyMinInt_mem x xs))

/-- C7: a candidate slot is scored 10 on a day with no used indices, 100
when the minimum absolute distance to a used index is 1, −50 when it is 2,
and 0 otherwise; the candidate list is chronological (a sublist of the
canonical slot order) and is then stable-sorted by score descending. -/
theorem C7_scoring (data : SessionData) (st : St) (task : Task) :
    (∀ (slot : String) (info : SlotInfo),
      dictGet (slotEntries data) slot = some info →
      (st.td task.teacher info.day = [] → scoreSlot data st.td task.teacher slot = 10) ∧
      (∀ d : Int,
        d ∈ (st.td task.teacher info.day).map
          (fun (e : Nat) => |(info.time_idx : Int) - (e : Int)|) →
        (∀ dp ∈ (st.td task.teacher info.day).map
          (fun (e : Nat) => |(info.time_idx : Int) - (e : Int)|), d ≤ dp) →
        scoreSlot data st.td task.teacher slot =
          (if d = 1 then 100 else if d = 2 then -50 else 0))) ∧
    List.Sublist (taskAvail data st task) (slotsOf data) ∧
    List.Perm (sortedAvail data st task) (taskAvail data st task) ∧
    (sortedAvail data st task).Pairwise (fun a b =>
      scoreSlot data st.td task.teacher b ≤ scoreSlot data st.td task.teacher a) ∧
    (∀ a b : String, List.Sublist [a, b] (taskAvail data st task) →
      scoreSlot data st.td task.teacher a = scoreSlot data st.td task.teacher b →
      List.Sublist [a, b] (sortedAvail data st task)) := by
  haveI : IsTotal String (fun a b =>
      scoreSlot data st.td task.teacher b ≤ scoreSlot data st.td task.teacher a) :=
    ⟨fun a b => le_total _ _⟩
  haveI : IsTrans String (fun a b =>
      scoreSlot data st.td task.teacher b ≤ scoreSlot data st.td task.teacher a) :=
    ⟨fun _ _ _ hab hbc => le_trans hbc hab⟩
  refine ⟨?_, List.filter_sublist _, List.perm_insertionSort _ _,
    List.sorted_insertionSort _ _, ?_⟩
  · intro slot info hinfo
    have hsc : scoreSlot data st.td task.teacher slot =
        if ((st.td task.teacher info.day).isEmpty) then 10
        else if pyMinInt ((st.td task.teacher info.day).map
            (fun (e : Nat) => |(info.time_idx : Int) - (e : Int)|)) = 1 then 100
        else if pyMinInt ((st.td task.teacher info.day).map
            (fun (e : Nat) => |(info.time_idx : Int) - (e : Int)|)) = 2 then -50
        else 0 := by
      unfold scoreSlot
      rw [hinfo]
    constructor
    · intro hempty
      rw [hsc, hempty]
      rfl
    · intro d hd hlb
      cases hexist : st.td task.teacher info.day with
      | nil =>
        rw [hexist] at hd
        cases hd
      | cons e es =>
        rw [hexist] at hd hlb
        rw [List.map_cons] at hd hlb
        have hmin := pyMinInt_eq hd hlb
        rw [hsc, hexist, List.map_cons, hmin]
        rfl
  · intro a b hsub heq
    exact List.pair_sublist_insertionSort (le_of_eq heq.symm) hsub

/-- A state in which teacher "T" has already used time index 0 on "Mon". -/
def wSt : St :=
  { occT := fun _ => [], occG := fun _ => [], occR := fun _ => [],
    td := fun t d => if t = "T" ∧ d = "Mon" then [0] else [],
    sched := [], errs := [] }

/-- The single lecture task `wData` expands to. -/
def wTask : Task := ⟨"T", ["A", "B"], "S", "lecture"⟩

theorem C7_scoring_witness :
    dictGet (slotEntries wData) "Mon 10" = some ⟨"Mon", 1⟩ ∧
    ((1 : Int) ∈ (wSt.td "T" "Mon").map (fun (e : Nat) => |((1 : Nat) : Int) - (e : Int)|)) ∧
    scoreSlot wData wSt.td "T" "Mon 10" = 100 ∧
    List.Perm (sortedAvail wData wSt wTask) (taskAvail wData wSt wTask) := by
  refine ⟨by decide, by decide, ?_, (C7_scoring wData wSt wTask).2.2.1⟩
  have h := ((C7_scoring wData wSt wTask).1 "Mon 10" ⟨"Mon", 1⟩ (by decide)).2 1
    (by decide) (by decide)
  simpa using h

/-! ### Room choice within a candidate slot (C8) -/

/-- In a list sorted ascending by `f`, everything strictly below the first
element found by `find?` fails the predicate. -/
theorem sorted_find?_minimal {α : Type} {f : α → Int} {p : α → Bool} :
    ∀ {l : List α} {a : α}, l.Pairwise (fun x y => f x ≤ f y) →
      l.find? p = some a → ∀ b ∈ l, f b < f a → p b = false := by
  intro l
  induction l with
  | nil =>
    intro a _ h
    cases h
  | cons x xs ih =>
    intro a hp hf b hb hlt
    by_cases hpx : p x = true
    · simp only [List.find?_cons, hpx] at hf
      cases hf
      rcases List.mem_cons.mp hb with rfl | hb'
      · exact absurd hlt (lt_irrefl _)
      · exact absurd hlt (not_lt.mpr ((List.pairwise_cons.mp hp).1 b hb'))
    · have hpxf : p x = false := Bool.eq_false_iff.mpr hpx
      simp only [List.find?_cons, hpxf] at hf
      rcases List.mem_cons.mp hb with rfl | hb'
      · exact hpxf
      · exact ih (List.pairwise_cons.mp hp).2 hf b hb' hlt

theorem freeSorted_sorted (data : SessionData) (st : St) (slot : String) :
    (freeSorted data st slot).Pairwise (fun a b =>
      (dictGet (room_caps data) a).getD 9999 ≤ (dictGet (room_caps data) b).getD 9999) := by
  haveI : IsTotal String (fun a b =>
      (dictGet (room_caps data) a).getD 9999 ≤ (dictGet (room_caps data) b).getD 9999) :=
    ⟨fun a b => le_total _ _⟩
  haveI : IsTrans String (fun a b =>
      (dictGet (room_caps data) a).getD 9999 ≤ (dictGet (room_caps data) b).getD 9999) :=
    ⟨fun _ _ _ => le_trans⟩
  exact List.sorted_insertionSort _ _

theorem mem_freeSorted {data : SessionData} {st : St} {slot r : String} :
    r ∈ freeSorted data st slot ↔ r ∈ room_names data ∧ r ∉ st.occR slot := by
  unfold freeSorted
  rw [List.mem_insertionSort, List.mem_filter]
  simp

/-- C8 (amended): a non-empty-named preferred room of a non-lecture task
that is free and fits is assigned immediately; whenever the preferred-room
branch yields nothing usable (no preference, lecture task, occupied, too
small, or the empty name, which Python's truthiness test treats like no
choice), any non-empty-named chosen room is a free configured room that
fits, and every free room of strictly smaller capacity does not fit. -/
theorem C8_room_choice (data : SessionData) (st : St) (task : Task) (stud : Int)
    (slot : String) :
    (∀ p : String, task.type ≠ "lecture" →
      dictGet data.teacher_prefs task.teacher = some p →
      p ∉ st.occR slot → fits data stud p = true → p ≠ "" →
      tryRoom data st task stud slot = some p) ∧
    ((prefTarget data st task stud slot = none ∨
        prefTarget data st task stud slot = some "") →
      ∀ r : String, tryRoom data st task stud slot = some r → r ≠ "" →
        r ∈ room_names data ∧ r ∉ st.occR slot ∧ fits data stud r = true ∧
        ∀ rp ∈ room_names data, rp ∉ st.occR slot →
          (dictGet (room_caps data) rp).getD 9999 <
            (dictGet (room_caps data) r).getD 9999 →
          fits data stud rp = false) := by
  constructor
  · intro p hty hpref hocc hfit hne
    have hb : (task.type != "lecture") = true := by
      simpa using hty
    have hcond : (!decide (p ∈ st.occR slot) && fits data stud p) = true := by
      simp [hocc, hfit]
    have hpt : prefTarget data st task stud slot = some p := by
      unfold prefTarget
      rw [if_pos hb, hpref]
      show (if !decide (p ∈ st.occR slot) && fits data stud p then some p else none) =
        some p
      rw [if_pos hcond]
    have hnotfalsy : ¬ (prefTarget data st task stud slot = none ∨
        prefTarget data st task stud slot = some "") := by
      rw [hpt]
      simp [hne]
    unfold tryRoom
    rw [if_neg hnotfalsy]
    exact hpt
  · intro hB r htr hne
    unfold tryRoom at htr
    rw [if_pos hB] at htr
    cases hfind : (freeSorted data st slot).find? (fits data stud) with
    | none =>
      rw [hfind] at htr
      rcases hB with h | h
      · rw [h] at htr
        cases htr
      · rw [h] at htr
        cases htr
        exact absurd rfl hne
    | some rp =>
      rw [hfind] at htr
      cases htr
      have hf := List.find?_some hfind
      have hm := mem_freeSorted.mp (List.mem_of_find?_eq_some hfind)
      refine ⟨hm.1, hm.2, hf, ?_⟩
      intro rq hrq hrqocc hlt
      exact sorted_find?_minimal (freeSorted_sorted data st slot) hfind rq
        (mem_freeSorted.mpr ⟨hrq, hrqocc⟩) hlt

/-- The C8 counterexample input: a seminar task whose teacher's preferred
room is the empty string, which is free and fits. -/
def c8Data : SessionData :=
  { teachers := ["T"], groups := [⟨"G", 1⟩], rooms := [⟨"R", 5⟩],
    assignments := [⟨"T", ["G"], "S", 1, "seminar"⟩],
    teacher_prefs := [("T", "")],
    days := ["Mon"], times := ["9"] }

/-- C8 fails on the code as stated: for a non-lecture task whose configured
preferred room "" is unoccupied and fits, the code does not assign it —
Python's `if not target:` treats the empty name as falsy, so the general
scan runs and assigns "R" instead. -/
theorem C8_counterexample :
    dictGet c8Data.teacher_prefs "T" = some "" ∧
    "" ∉ initSt.occR "Mon 9" ∧
    fits c8Data (sumSizes c8Data ["G"]) "" = true ∧
    tryRoom c8Data initSt ⟨"T", ["G"], "S", "seminar"⟩
      (sumSizes c8Data ["G"]) "Mon 9" = some "R" ∧
    some "R" ≠ some "" ∧
    generate_schedule c8Data =
      .ok { status := "success", message := none,
            schedule := [{ slot := "Mon 9", day := "Mon", time := "9", teacher := "T",
                           group := "G", groups := ["G"], subject := "S", room := "R",
                           type := "seminar" }],
            errors := [] } := by
  decide

/-- The input exercising the preferred-room fast path: preferred room "P"
(capacity 5) wins although the free room "Q" (capacity 3) is smaller. -/
def c8bData : SessionData :=
  { teachers := ["T"], groups := [⟨"G", 1⟩], rooms := [⟨"P", 5⟩, ⟨"Q", 3⟩],
    assignments := [⟨"T", ["G"], "S", 1, "seminar"⟩],
    teacher_prefs := [("T", "P")],
    days := ["Mon"], times := ["9"] }

theorem C8_room_choice_witness :
    tryRoom c8bData initSt ⟨"T", ["G"], "S", "seminar"⟩ 1 "Mon 9" = some "P" ∧
    ("R" ∈ room_names c8Data ∧ "R" ∉ initSt.occR "Mon 9" ∧
      fits c8Data 1 "R" = true ∧
      ∀ rp ∈ room_names c8Data, rp ∉ initSt.occR "Mon 9" →
        (dictGet (room_caps c8Data) rp).getD 9999 <
          (dictGet (room_caps c8Data) "R").getD 9999 →
        fits c8Data 1 rp = false) :=
  ⟨(C8_room_choice c8bData initSt ⟨"T", ["G"], "S", "seminar"⟩ 1 "Mon 9").1 "P"
      (by decide) (by decide) (by decide) (by decide) (by decide),
   (C8_room_choice c8Data initSt ⟨"T", ["G"], "S", "seminar"⟩ 1 "Mon 9").2
      (Or.inr (by decide)) "R" (by decide) (by decide)⟩

end UniShed
